import Mathlib

/-!
# FT_Sim — verification of the geometric core and the time-series driver

Shallow embedding of the FT_Sim repository (rigid-motion recovery, surface-integral
capacitance estimator, bulk/step time-series driver) into Lean 4.

Conventions of the embedding:

* `glm::vec3` (single-precision floats in the source) is modelled as a record of
  real numbers `Vec3`; float literals such as `1e-10f` are modelled by the exact
  rational value of the written literal.
* `glm::mat4` is modelled as `Matrix (Fin 4) (Fin 4) ℝ`; `glm` stores matrices
  column-major (`m[j]` is column `j`), so a matrix whose columns are `U, V, W, origin`
  has `M i j` = the `i`-th component of column `j`.  `glm::inverse` computes
  adjugate/determinant, which coincides with Mathlib's `Matrix.inv` whenever the
  determinant is nonzero (all uses below are under that hypothesis).
* `glm::normalize v = v / length v`; on the zero vector the source would produce
  NaNs, here real division by zero yields the zero vector.  No theorem below
  depends on the value of `normalize 0`.
* The Embree ray-query service (`rtcIntersect1`) is an external collaborator; it is
  modelled as an oracle `Scene : Ray → Option ℝ` returning the nearest-hit distance
  of a ray capped at its `tfar`, or `none` when nothing lies within the cap.
-/

/-- `glm::vec3`, with real components (source: single floats). -/
structure Vec3 where
  x : ℝ
  y : ℝ
  z : ℝ

namespace Vec3

@[ext] theorem ext_iff' {a b : Vec3} (hx : a.x = b.x) (hy : a.y = b.y) (hz : a.z = b.z) :
    a = b := by
  cases a; cases b; simp_all

instance : Add Vec3 := ⟨fun a b => ⟨a.x + b.x, a.y + b.y, a.z + b.z⟩⟩
instance : Sub Vec3 := ⟨fun a b => ⟨a.x - b.x, a.y - b.y, a.z - b.z⟩⟩
instance : Neg Vec3 := ⟨fun a => ⟨-a.x, -a.y, -a.z⟩⟩
instance : SMul ℝ Vec3 := ⟨fun c a => ⟨c * a.x, c * a.y, c * a.z⟩⟩
instance : Zero Vec3 := ⟨⟨0, 0, 0⟩⟩

@[simp] theorem add_def (a b : Vec3) : a + b = ⟨a.x + b.x, a.y + b.y, a.z + b.z⟩ := rfl
@[simp] theorem sub_def (a b : Vec3) : a - b = ⟨a.x - b.x, a.y - b.y, a.z - b.z⟩ := rfl
@[simp] theorem neg_def (a : Vec3) : -a = ⟨-a.x, -a.y, -a.z⟩ := rfl
@[simp] theorem smul_def (c : ℝ) (a : Vec3) : c • a = ⟨c * a.x, c * a.y, c * a.z⟩ := rfl
@[simp] theorem zero_def : (0 : Vec3) = ⟨0, 0, 0⟩ := rfl

/-- `glm::dot`. -/
def dot (a b : Vec3) : ℝ := a.x * b.x + a.y * b.y + a.z * b.z

/-- `glm::cross`. -/
def cross (a b : Vec3) : Vec3 :=
  ⟨a.y * b.z - a.z * b.y, a.z * b.x - a.x * b.z, a.x * b.y - a.y * b.x⟩

/-- `glm::length`. -/
noncomputable def length (a : Vec3) : ℝ := Real.sqrt (dot a a)

/-- `glm::normalize` (`v / length v`; division by zero yields `0` here). -/
noncomputable def normalize (a : Vec3) : Vec3 :=
  ⟨a.x / length a, a.y / length a, a.z / length a⟩

theorem dot_self_nonneg (a : Vec3) : 0 ≤ dot a a := by
  unfold dot
  nlinarith [mul_self_nonneg a.x, mul_self_nonneg a.y, mul_self_nonneg a.z]

theorem dot_self_eq_zero {a : Vec3} : dot a a = 0 ↔ a = 0 := by
  unfold dot
  constructor
  · intro h
    have hx : a.x = 0 := by nlinarith [sq_nonneg a.x, sq_nonneg a.y, sq_nonneg a.z]
    have hy : a.y = 0 := by nlinarith [sq_nonneg a.x, sq_nonneg a.y, sq_nonneg a.z]
    have hz : a.z = 0 := by nlinarith [sq_nonneg a.x, sq_nonneg a.y, sq_nonneg a.z]
    exact Vec3.ext_iff' hx hy hz
  · intro h; subst h; simp

theorem dot_self_pos {a : Vec3} (h : a ≠ 0) : 0 < dot a a :=
  lt_of_le_of_ne (dot_self_nonneg a) (fun h0 => h (dot_self_eq_zero.mp h0.symm))

theorem length_pos {a : Vec3} (h : a ≠ 0) : 0 < length a :=
  Real.sqrt_pos.mpr (dot_self_pos h)

theorem sq_length (a : Vec3) : length a * length a = dot a a :=
  Real.mul_self_sqrt (dot_self_nonneg a)

theorem dot_normalize_self {a : Vec3} (h : a ≠ 0) :
    dot (normalize a) (normalize a) = 1 := by
  have hl := length_pos h
  have hs := sq_length a
  unfold normalize dot
  field_simp
  unfold dot at hs
  nlinarith [hs]

theorem normalize_of_unit {a : Vec3} (h : dot a a = 1) : normalize a = a := by
  have hl : length a = 1 := by
    unfold length; rw [h]; exact Real.sqrt_one
  unfold normalize
  rw [hl]; simp

theorem dot_smul_left (c : ℝ) (a b : Vec3) : dot (c • a) b = c * dot a b := by
  unfold dot; simp; ring

theorem dot_neg_left (a b : Vec3) : dot (-a) b = -dot a b := by
  unfold dot; simp; ring

/-- Lagrange's identity for the cross product, componentwise. -/
theorem dot_cross_self (a b : Vec3) :
    dot (cross a b) (cross a b) = dot a a * dot b b - dot a b * dot a b := by
  unfold dot cross; ring

@[simp] theorem dot_cross_left (a b : Vec3) : dot (cross a b) a = 0 := by
  unfold dot cross; ring

@[simp] theorem dot_cross_right (a b : Vec3) : dot (cross a b) b = 0 := by
  unfold dot cross; ring

theorem cross_eq_zero_left {a b : Vec3} (h : a = 0) : cross a b = 0 := by
  subst h; unfold cross; simp

end Vec3

open Vec3

/-- `CoordinateSystem` (BulkCapacitanceProcessor.h): origin plus basis axes. -/
structure CoordinateSystem where
  origin : Vec3
  U : Vec3
  V : Vec3
  W : Vec3

/-- `BulkCapacitanceProcessor::calculateCircumcenter`: two-chord formula with a
centroid fallback when `|AB×AC|²` is below `1e-10`. -/
noncomputable def calculateCircumcenter (A B C : Vec3) : Vec3 :=
  let AB := B - A
  let AC := C - A
  let normal := cross AB AC
  let normalLengthSq := dot normal normal
  if normalLengthSq < 1e-10 then
    (1 / 3 : ℝ) • (A + B + C)
  else
    let ABsq := dot AB AB
    let ACsq := dot AC AC
    let numerator := cross (ACsq • AB - ABsq • AC) normal
    A + (1 / (2 * normalLengthSq)) • numerator

/-- The reference-point selection in `createCoordinateSystem` (the `switch` on the
`referencePoint` character; any other character falls back to `A`). -/
def refSelect (referencePoint : Char) (A B C : Vec3) : Vec3 :=
  if referencePoint = 'A' then A
  else if referencePoint = 'B' then B
  else if referencePoint = 'C' then C
  else A

/-- `BulkCapacitanceProcessor::createCoordinateSystem`. -/
noncomputable def createCoordinateSystem (A B C : Vec3) (referencePoint : Char) :
    CoordinateSystem :=
  let origin := calculateCircumcenter A B C
  let AB := B - A
  let AC := C - A
  let crossProduct := cross AB AC
  let W := normalize crossProduct
  let referencePos := refSelect referencePoint A B C
  let centerToRef := referencePos - origin
  let V := -normalize centerToRef
  let U := normalize (cross V W)
  ⟨origin, U, V, W⟩

/-- C6 helper: the collinearity test value `|AB×AC|²` of the source. -/
def normalLenSq (A B C : Vec3) : ℝ := dot (cross (B - A) (C - A)) (cross (B - A) (C - A))

/-- **C6**: whenever the squared length of `AB×AC` falls below the `1e-10` threshold
(in particular for exactly collinear points, where it is `0`), the circumcenter
computation returns the arithmetic centroid `(A+B+C)/3`. -/
theorem circumcenter_degenerate_centroid (A B C : Vec3)
    (h : normalLenSq A B C < 1e-10) :
    calculateCircumcenter A B C = (1 / 3 : ℝ) • (A + B + C) := by
  unfold calculateCircumcenter
  unfold normalLenSq at h
  simp only [h, if_pos]

/-- Witness for C6 at the exactly collinear triple `A=(0,0,0)`, `B=(1,0,0)`, `C=(2,0,0)`. -/
theorem circumcenter_degenerate_centroid_witness :
    normalLenSq ⟨0, 0, 0⟩ ⟨1, 0, 0⟩ ⟨2, 0, 0⟩ < 1e-10 ∧
      calculateCircumcenter ⟨0, 0, 0⟩ ⟨1, 0, 0⟩ ⟨2, 0, 0⟩ =
        (1 / 3 : ℝ) • ((⟨0, 0, 0⟩ : Vec3) + ⟨1, 0, 0⟩ + ⟨2, 0, 0⟩) := by
  have h : normalLenSq ⟨0, 0, 0⟩ ⟨1, 0, 0⟩ ⟨2, 0, 0⟩ < 1e-10 := by
    unfold normalLenSq Vec3.dot Vec3.cross
    norm_num
  exact ⟨h, circumcenter_degenerate_centroid _ _ _ h⟩

namespace Vec3

theorem dot_smul_right (c : ℝ) (a b : Vec3) : dot a (c • b) = c * dot a b := by
  unfold dot; simp; ring

theorem normalize_eq_smul (a : Vec3) : normalize a = (1 / length a) • a := by
  unfold normalize
  apply Vec3.ext_iff' <;> simp <;> ring

theorem smul_eq_zero_vec {c : ℝ} {a : Vec3} : c • a = 0 ↔ c = 0 ∨ a = 0 := by
  constructor
  · intro h
    by_cases hc : c = 0
    · exact Or.inl hc
    · refine Or.inr ?_
      have hx := congrArg Vec3.x h
      have hy := congrArg Vec3.y h
      have hz := congrArg Vec3.z h
      simp at hx hy hz
      rcases hx with hx | hx
      · exact absurd hx hc
      rcases hy with hy | hy
      · exact absurd hy hc
      rcases hz with hz | hz
      · exact absurd hz hc
      exact Vec3.ext_iff' hx hy hz
  · rintro (h | h) <;> subst h <;> apply Vec3.ext_iff' <;> simp

theorem cross_smul_self_left (s : ℝ) (u : Vec3) : cross u (s • u) = 0 := by
  apply Vec3.ext_iff' <;> simp [cross] <;> ring

theorem cross_smul_self_right (s : ℝ) (u : Vec3) : cross (s • u) u = 0 := by
  apply Vec3.ext_iff' <;> simp [cross] <;> ring

theorem cross_zero_right (u : Vec3) : cross u 0 = 0 := by
  apply Vec3.ext_iff' <;> simp [cross]

theorem cross_zero_left (u : Vec3) : cross 0 u = 0 := by
  apply Vec3.ext_iff' <;> simp [cross]

end Vec3

section CircumcenterGeometry

variable (A B C : Vec3)

/-- The `ACsq•AB − ABsq•AC` chord combination of the circumcenter formula. -/
noncomputable def chordCombo : Vec3 :=
  dot (C - A) (C - A) • (B - A) - dot (B - A) (B - A) • (C - A)

/-- The chord combination is orthogonal to the plane normal (polynomial identity). -/
theorem chordCombo_dot_normal : dot (chordCombo A B C) (cross (B - A) (C - A)) = 0 := by
  unfold chordCombo Vec3.dot Vec3.cross
  simp
  ring

/-- `(chordCombo × n)·AB = −|AB|²·|n|²` (polynomial identity). -/
theorem chordComboCross_dot_AB :
    dot (cross (chordCombo A B C) (cross (B - A) (C - A))) (B - A) =
      -(dot (B - A) (B - A) * dot (cross (B - A) (C - A)) (cross (B - A) (C - A))) := by
  unfold chordCombo Vec3.dot Vec3.cross
  simp
  ring

/-- `(chordCombo × n)·AC = −|AC|²·|n|²` (polynomial identity). -/
theorem chordComboCross_dot_AC :
    dot (cross (chordCombo A B C) (cross (B - A) (C - A))) (C - A) =
      -(dot (C - A) (C - A) * dot (cross (B - A) (C - A)) (cross (B - A) (C - A))) := by
  unfold chordCombo Vec3.dot Vec3.cross
  simp
  ring

/-- `chordCombo × AC = |AC|² • n` (polynomial identity). -/
theorem chordCombo_cross_AC :
    cross (chordCombo A B C) (C - A) = dot (C - A) (C - A) • cross (B - A) (C - A) := by
  unfold chordCombo
  apply Vec3.ext_iff' <;> simp [Vec3.cross, Vec3.dot] <;> ring

end CircumcenterGeometry

namespace Vec3

theorem dot_sub_left (a b c : Vec3) : dot (a - b) c = dot a c - dot b c := by
  unfold dot; simp; ring

theorem dot_add_left (a b c : Vec3) : dot (a + b) c = dot a c + dot b c := by
  unfold dot; simp; ring

theorem dot_left_cross (a b : Vec3) : dot a (cross a b) = 0 := by
  unfold dot cross; ring

theorem dot_right_cross (a b : Vec3) : dot b (cross a b) = 0 := by
  unfold dot cross; ring

theorem sub_eq_zero_iff_vec {a b : Vec3} : a - b = 0 ↔ a = b := by
  constructor
  · intro h
    have hx := congrArg Vec3.x h
    have hy := congrArg Vec3.y h
    have hz := congrArg Vec3.z h
    simp at hx hy hz
    exact Vec3.ext_iff' (by linarith) (by linarith) (by linarith)
  · intro h; subst h; apply Vec3.ext_iff' <;> simp

end Vec3

/-- The non-degenerate branch of `calculateCircumcenter`, written with `chordCombo`. -/
theorem circumcenter_formula (A B C : Vec3) (h : ¬ normalLenSq A B C < 1e-10) :
    calculateCircumcenter A B C =
      A + (1 / (2 * normalLenSq A B C)) •
        cross (chordCombo A B C) (cross (B - A) (C - A)) := by
  unfold calculateCircumcenter chordCombo
  unfold normalLenSq at h ⊢
  simp only [if_neg h]

/-- The reference-point options: `refSelect` always returns `A`, `B` or `C`. -/
theorem refSelect_cases (r : Char) (A B C : Vec3) :
    refSelect r A B C = A ∨ refSelect r A B C = B ∨ refSelect r A B C = C := by
  unfold refSelect
  split_ifs <;> tauto

/-- Both circumcenter branches return a point in the plane of `A`, `B`, `C`: the
vector from the returned origin to any of the three points (hence to the selected
reference point) is orthogonal to `AB×AC`. -/
theorem ref_sub_circumcenter_dot_normal (A B C : Vec3) (r : Char) :
    dot (refSelect r A B C - calculateCircumcenter A B C) (cross (B - A) (C - A)) = 0 := by
  rcases refSelect_cases r A B C with hR | hR | hR <;> rw [hR] <;>
    by_cases hb : normalLenSq A B C < 1e-10
  all_goals (
    first
      | rw [circumcenter_degenerate_centroid A B C hb]
      | rw [circumcenter_formula A B C hb])
  all_goals (unfold Vec3.dot Vec3.cross; simp; ring)

theorem Vec3.eq_add_inv_smul {c : ℝ} (hc : c ≠ 0) {u v w : Vec3}
    (h : u = v + (1 / c) • w) : w = c • (u - v) := by
  have hone : c * (1 / c) = 1 := by field_simp
  have hx := congrArg Vec3.x h
  have hy := congrArg Vec3.y h
  have hz := congrArg Vec3.z h
  simp only [Vec3.add_def, Vec3.smul_def] at hx hy hz
  apply Vec3.ext_iff' <;> simp only [Vec3.smul_def, Vec3.sub_def]
  · linear_combination (-c) * hx - w.x * hone
  · linear_combination (-c) * hy - w.y * hone
  · linear_combination (-c) * hz - w.z * hone

theorem normalLenSq_def (A B C : Vec3) :
    normalLenSq A B C = dot (cross (B - A) (C - A)) (cross (B - A) (C - A)) := rfl

theorem normalLenSq_pos (A B C : Vec3) (hb : ¬ normalLenSq A B C < 1e-10) :
    0 < normalLenSq A B C := by
  have h := le_of_not_lt hb
  have : (0:ℝ) < 1e-10 := by norm_num
  linarith

/-- For a non-collinear triple, the selected reference point never coincides with the
origin returned by `calculateCircumcenter` (in either branch). -/
theorem refpoint_ne_circumcenter (A B C : Vec3) (r : Char)
    (hn : cross (B - A) (C - A) ≠ 0) :
    refSelect r A B C - calculateCircumcenter A B C ≠ 0 := by
  intro h0
  have heq : refSelect r A B C = calculateCircumcenter A B C :=
    Vec3.sub_eq_zero_iff_vec.mp h0
  by_cases hb : normalLenSq A B C < 1e-10
  · rw [circumcenter_degenerate_centroid A B C hb] at heq
    rcases refSelect_cases r A B C with hR | hR | hR <;> rw [hR] at heq <;>
      [ (have hpar : C - A = (-1 : ℝ) • (B - A) := by
          have hx := congrArg Vec3.x heq
          have hy := congrArg Vec3.y heq
          have hz := congrArg Vec3.z heq
          simp at hx hy hz
          apply Vec3.ext_iff' <;> simp <;> linarith
         exact hn (by rw [hpar]; exact Vec3.cross_smul_self_left (-1) (B - A)));
        (have hpar : C - A = (2 : ℝ) • (B - A) := by
          have hx := congrArg Vec3.x heq
          have hy := congrArg Vec3.y heq
          have hz := congrArg Vec3.z heq
          simp at hx hy hz
          apply Vec3.ext_iff' <;> simp <;> linarith
         exact hn (by rw [hpar]; exact Vec3.cross_smul_self_left 2 (B - A)));
        (have hpar : B - A = (2 : ℝ) • (C - A) := by
          have hx := congrArg Vec3.x heq
          have hy := congrArg Vec3.y heq
          have hz := congrArg Vec3.z heq
          simp at hx hy hz
          apply Vec3.ext_iff' <;> simp <;> linarith
         exact hn (by rw [hpar]; exact Vec3.cross_smul_self_right 2 (C - A)))]
  · have hnsq := normalLenSq_pos A B C hb
    have hnsq' : normalLenSq A B C ≠ 0 := ne_of_gt hnsq
    rw [circumcenter_formula A B C hb] at heq
    rcases refSelect_cases r A B C with hR | hR | hR <;> rw [hR] at heq
    · -- reference point A: the correction term must vanish, forcing collinearity
      have hc2 : 2 * normalLenSq A B C ≠ 0 := by positivity
      have hnum0 : cross (chordCombo A B C) (cross (B - A) (C - A)) = 0 := by
        have h' := Vec3.eq_add_inv_smul hc2 heq
        rw [h']
        apply Vec3.ext_iff' <;> simp
      have hdd : dot (chordCombo A B C) (chordCombo A B C) *
          dot (cross (B - A) (C - A)) (cross (B - A) (C - A)) = 0 := by
        have h1 := Vec3.dot_cross_self (chordCombo A B C) (cross (B - A) (C - A))
        rw [hnum0] at h1
        have h2 := chordCombo_dot_normal A B C
        have h3 : dot (0 : Vec3) (0 : Vec3) = 0 := by unfold Vec3.dot; simp
        rw [h3] at h1
        nlinarith [h1, h2]
      have hd0 : chordCombo A B C = 0 := by
        rcases mul_eq_zero.mp hdd with h | h
        · exact Vec3.dot_self_eq_zero.mp h
        · exact absurd h (by rw [← normalLenSq_def]; exact hnsq')
      have hAC : dot (C - A) (C - A) • cross (B - A) (C - A) = 0 := by
        rw [← chordCombo_cross_AC, hd0]
        exact Vec3.cross_zero_left _
      rcases Vec3.smul_eq_zero_vec.mp hAC with h | h
      · have : C - A = 0 := Vec3.dot_self_eq_zero.mp h
        exact hn (by rw [this]; exact Vec3.cross_zero_right _)
      · exact hn h
    · -- reference point B: leads to |AB|² = 0
      have hc2 : 2 * normalLenSq A B C ≠ 0 := by positivity
      have hnum : cross (chordCombo A B C) (cross (B - A) (C - A)) =
          (2 * normalLenSq A B C) • (B - A) :=
        Vec3.eq_add_inv_smul hc2 heq
      have h2 : dot (cross (chordCombo A B C) (cross (B - A) (C - A))) (B - A) =
          2 * normalLenSq A B C * dot (B - A) (B - A) := by
        rw [hnum, Vec3.dot_smul_left]
      have h3 := chordComboCross_dot_AB A B C
      rw [← normalLenSq_def] at h3
      have hAB0 : dot (B - A) (B - A) = 0 := by
        have hc : 2 * normalLenSq A B C * dot (B - A) (B - A) =
            -(dot (B - A) (B - A) * normalLenSq A B C) := by rw [← h2, h3]
        nlinarith [hc, hnsq, Vec3.dot_self_nonneg (B - A)]
      have : B - A = 0 := Vec3.dot_self_eq_zero.mp hAB0
      exact hn (by rw [this]; exact Vec3.cross_zero_left _)
    · -- reference point C: leads to |AC|² = 0
      have hc2 : 2 * normalLenSq A B C ≠ 0 := by positivity
      have hnum : cross (chordCombo A B C) (cross (B - A) (C - A)) =
          (2 * normalLenSq A B C) • (C - A) :=
        Vec3.eq_add_inv_smul hc2 heq
      have h2 : dot (cross (chordCombo A B C) (cross (B - A) (C - A))) (C - A) =
          2 * normalLenSq A B C * dot (C - A) (C - A) := by
        rw [hnum, Vec3.dot_smul_left]
      have h3 := chordComboCross_dot_AC A B C
      rw [← normalLenSq_def] at h3
      have hAC0 : dot (C - A) (C - A) = 0 := by
        have hc : 2 * normalLenSq A B C * dot (C - A) (C - A) =
            -(dot (C - A) (C - A) * normalLenSq A B C) := by rw [← h2, h3]
        nlinarith [hc, hnsq, Vec3.dot_self_nonneg (C - A)]
      have : C - A = 0 := Vec3.dot_self_eq_zero.mp hAC0
      exact hn (by rw [this]; exact Vec3.cross_zero_right _)

namespace Vec3

theorem dot_neg_neg (a b : Vec3) : dot (-a) (-b) = dot a b := by
  unfold dot; simp

end Vec3

theorem ccs_origin (A B C : Vec3) (r : Char) :
    (createCoordinateSystem A B C r).origin = calculateCircumcenter A B C := rfl

theorem ccs_W (A B C : Vec3) (r : Char) :
    (createCoordinateSystem A B C r).W = normalize (cross (B - A) (C - A)) := rfl

theorem ccs_V (A B C : Vec3) (r : Char) :
    (createCoordinateSystem A B C r).V =
      -normalize (refSelect r A B C - calculateCircumcenter A B C) := rfl

theorem ccs_U (A B C : Vec3) (r : Char) :
    (createCoordinateSystem A B C r).U =
      normalize (cross (createCoordinateSystem A B C r).V
        (createCoordinateSystem A B C r).W) := rfl

/-- For a non-collinear triple, the axes produced by `createCoordinateSystem` form an
orthonormal system (the source's guarantee for non-degenerate inputs). -/
theorem frame_orthonormal (A B C : Vec3) (r : Char)
    (hn : cross (B - A) (C - A) ≠ 0) :
    dot (createCoordinateSystem A B C r).U (createCoordinateSystem A B C r).U = 1 ∧
    dot (createCoordinateSystem A B C r).V (createCoordinateSystem A B C r).V = 1 ∧
    dot (createCoordinateSystem A B C r).W (createCoordinateSystem A B C r).W = 1 ∧
    dot (createCoordinateSystem A B C r).U (createCoordinateSystem A B C r).V = 0 ∧
    dot (createCoordinateSystem A B C r).U (createCoordinateSystem A B C r).W = 0 ∧
    dot (createCoordinateSystem A B C r).V (createCoordinateSystem A B C r).W = 0 := by
  have hctr := refpoint_ne_circumcenter A B C r hn
  have hW1 : dot (createCoordinateSystem A B C r).W (createCoordinateSystem A B C r).W = 1 := by
    rw [ccs_W]; exact Vec3.dot_normalize_self hn
  have hV1 : dot (createCoordinateSystem A B C r).V (createCoordinateSystem A B C r).V = 1 := by
    rw [ccs_V, Vec3.dot_neg_neg]; exact Vec3.dot_normalize_self hctr
  have hVW : dot (createCoordinateSystem A B C r).V (createCoordinateSystem A B C r).W = 0 := by
    rw [ccs_V, ccs_W, Vec3.dot_neg_left, Vec3.normalize_eq_smul, Vec3.normalize_eq_smul,
      Vec3.dot_smul_left, Vec3.dot_smul_right, ref_sub_circumcenter_dot_normal]
    simp
  have hU_unit : dot (cross (createCoordinateSystem A B C r).V (createCoordinateSystem A B C r).W)
      (cross (createCoordinateSystem A B C r).V (createCoordinateSystem A B C r).W) = 1 := by
    rw [Vec3.dot_cross_self, hV1, hW1, hVW]; norm_num
  have hU_eq : (createCoordinateSystem A B C r).U =
      cross (createCoordinateSystem A B C r).V (createCoordinateSystem A B C r).W := by
    rw [ccs_U]; exact Vec3.normalize_of_unit hU_unit
  refine ⟨?_, hV1, hW1, ?_, ?_, hVW⟩
  · rw [hU_eq]; exact hU_unit
  · rw [hU_eq]; exact Vec3.dot_cross_left _ _
  · rw [hU_eq]; exact Vec3.dot_cross_right _ _

/-- The `glm::mat4` built in `calculateRigidBodyTransform` from a coordinate system:
columns are `U`, `V`, `W` and the origin (homogeneous). -/
def frameMatrix (c : CoordinateSystem) : Matrix (Fin 4) (Fin 4) ℝ :=
  Matrix.of ![![c.U.x, c.V.x, c.W.x, c.origin.x],
    ![c.U.y, c.V.y, c.W.y, c.origin.y],
    ![c.U.z, c.V.z, c.W.z, c.origin.z],
    ![0, 0, 0, 1]]

/-- Explicit inverse of `frameMatrix` for an orthonormal system (proof device, not a
source function): transposed axes with `−axis·origin` translation column. -/
def frameInvMatrix (c : CoordinateSystem) : Matrix (Fin 4) (Fin 4) ℝ :=
  Matrix.of ![![c.U.x, c.U.y, c.U.z, -(dot c.U c.origin)],
    ![c.V.x, c.V.y, c.V.z, -(dot c.V c.origin)],
    ![c.W.x, c.W.y, c.W.z, -(dot c.W c.origin)],
    ![0, 0, 0, 1]]

set_option maxHeartbeats 800000 in
theorem frameInv_mul_frame (c : CoordinateSystem)
    (hUU : dot c.U c.U = 1) (hVV : dot c.V c.V = 1) (hWW : dot c.W c.W = 1)
    (hUV : dot c.U c.V = 0) (hUW : dot c.U c.W = 0) (hVW : dot c.V c.W = 0) :
    frameInvMatrix c * frameMatrix c = 1 := by
  unfold Vec3.dot at hUU hVV hWW hUV hUW hVW
  ext i j
  fin_cases i <;> fin_cases j <;>
    simp [frameMatrix, frameInvMatrix, Matrix.mul_apply, Fin.sum_univ_four,
      Matrix.one_apply, Vec3.dot] <;>
    linarith [hUU, hVV, hWW, hUV, hUW, hVW,
      mul_comm c.U.x c.V.x, mul_comm c.U.y c.V.y, mul_comm c.U.z c.V.z]

theorem frame_mul_inv (c : CoordinateSystem)
    (hUU : dot c.U c.U = 1) (hVV : dot c.V c.V = 1) (hWW : dot c.W c.W = 1)
    (hUV : dot c.U c.V = 0) (hUW : dot c.U c.W = 0) (hVW : dot c.V c.W = 0) :
    frameMatrix c * (frameMatrix c)⁻¹ = 1 := by
  have hL := frameInv_mul_frame c hUU hVV hWW hUV hUW hVW
  have hR : frameMatrix c * frameInvMatrix c = 1 := Matrix.mul_eq_one_comm.mp hL
  rw [Matrix.inv_eq_left_inv hL]
  exact hR

/-- `BulkCapacitanceProcessor::calculateRigidBodyTransform`: `toMatrix * inverse(fromMatrix)`
(`glm::inverse` agrees with `Matrix.inv` for invertible matrices, which the orthonormal
frame matrices below always are). -/
noncomputable def calculateRigidBodyTransform (fromSys toSys : CoordinateSystem) :
    Matrix (Fin 4) (Fin 4) ℝ :=
  frameMatrix toSys * (frameMatrix fromSys)⁻¹

/-- **C5**: for every non-degenerate (non-collinear) tracked triple, the rigid
transform solver applied with the deformed frame equal to the rest frame yields the
4×4 identity matrix (for any reference-point selector). -/
theorem rigidTransform_same_frame_identity (A B C : Vec3) (r : Char)
    (hn : cross (B - A) (C - A) ≠ 0) :
    calculateRigidBodyTransform (createCoordinateSystem A B C r)
      (createCoordinateSystem A B C r) = 1 := by
  obtain ⟨hUU, hVV, hWW, hUV, hUW, hVW⟩ := frame_orthonormal A B C r hn
  unfold calculateRigidBodyTransform
  exact frame_mul_inv _ hUU hVV hWW hUV hUW hVW

/-- Witness for C5 at the non-collinear triple `(0,0,0)`, `(1,0,0)`, `(0,1,0)` with
reference point `A`. -/
theorem rigidTransform_same_frame_identity_witness :
    cross ((⟨1, 0, 0⟩ : Vec3) - ⟨0, 0, 0⟩) ((⟨0, 1, 0⟩ : Vec3) - ⟨0, 0, 0⟩) ≠ 0 ∧
      calculateRigidBodyTransform
        (createCoordinateSystem ⟨0, 0, 0⟩ ⟨1, 0, 0⟩ ⟨0, 1, 0⟩ 'A')
        (createCoordinateSystem ⟨0, 0, 0⟩ ⟨1, 0, 0⟩ ⟨0, 1, 0⟩ 'A') = 1 := by
  have hn : cross ((⟨1, 0, 0⟩ : Vec3) - ⟨0, 0, 0⟩) ((⟨0, 1, 0⟩ : Vec3) - ⟨0, 0, 0⟩) ≠ 0 := by
    intro h
    have hz : (cross ((⟨1, 0, 0⟩ : Vec3) - ⟨0, 0, 0⟩) ((⟨0, 1, 0⟩ : Vec3) - ⟨0, 0, 0⟩)).z
        = (0 : Vec3).z := congrArg Vec3.z h
    rw [Vec3.zero_def] at hz
    norm_num [Vec3.cross, Vec3.sub_def] at hz
  exact ⟨hn, rigidTransform_same_frame_identity _ _ _ _ hn⟩

theorem CoordinateSystem.ext' {c d : CoordinateSystem} (h1 : c.origin = d.origin)
    (h2 : c.U = d.U) (h3 : c.V = d.V) (h4 : c.W = d.W) : c = d := by
  cases c; cases d; simp_all

theorem Vec3.add_sub_add_cancel (a b t : Vec3) : (a + t) - (b + t) = a - b := by
  apply Vec3.ext_iff' <;> simp

theorem normalLenSq_translate (A B C t : Vec3) :
    normalLenSq (A + t) (B + t) (C + t) = normalLenSq A B C := by
  unfold normalLenSq
  rw [Vec3.add_sub_add_cancel, Vec3.add_sub_add_cancel]

theorem chordCombo_translate (A B C t : Vec3) :
    chordCombo (A + t) (B + t) (C + t) = chordCombo A B C := by
  unfold chordCombo
  rw [Vec3.add_sub_add_cancel, Vec3.add_sub_add_cancel]

theorem refSelect_translate (r : Char) (A B C t : Vec3) :
    refSelect r (A + t) (B + t) (C + t) = refSelect r A B C + t := by
  unfold refSelect
  split_ifs <;> rfl

/-- The circumcenter computation is translation-equivariant (both branches). -/
theorem calculateCircumcenter_translate (A B C t : Vec3) :
    calculateCircumcenter (A + t) (B + t) (C + t) = calculateCircumcenter A B C + t := by
  by_cases hb : normalLenSq A B C < 1e-10
  · rw [circumcenter_degenerate_centroid A B C hb,
      circumcenter_degenerate_centroid (A + t) (B + t) (C + t)
        (by rwa [normalLenSq_translate])]
    apply Vec3.ext_iff' <;> simp <;> ring
  · rw [circumcenter_formula A B C hb,
      circumcenter_formula (A + t) (B + t) (C + t)
        (by rwa [normalLenSq_translate]),
      normalLenSq_translate, chordCombo_translate,
      Vec3.add_sub_add_cancel, Vec3.add_sub_add_cancel]
    apply Vec3.ext_iff' <;> simp <;> ring

/-- Translating all three tracked points shifts the frame origin by the same vector
and leaves the frame axes unchanged. -/
theorem createCoordinateSystem_translate (A B C t : Vec3) (r : Char) :
    createCoordinateSystem (A + t) (B + t) (C + t) r =
      ⟨(createCoordinateSystem A B C r).origin + t,
        (createCoordinateSystem A B C r).U,
        (createCoordinateSystem A B C r).V,
        (createCoordinateSystem A B C r).W⟩ := by
  have hW : (createCoordinateSystem (A + t) (B + t) (C + t) r).W =
      (createCoordinateSystem A B C r).W := by
    rw [ccs_W, ccs_W, Vec3.add_sub_add_cancel, Vec3.add_sub_add_cancel]
  have hV : (createCoordinateSystem (A + t) (B + t) (C + t) r).V =
      (createCoordinateSystem A B C r).V := by
    rw [ccs_V, ccs_V, refSelect_translate, calculateCircumcenter_translate,
      Vec3.add_sub_add_cancel]
  have hU : (createCoordinateSystem (A + t) (B + t) (C + t) r).U =
      (createCoordinateSystem A B C r).U := by
    rw [ccs_U, ccs_U, hV, hW]
  refine CoordinateSystem.ext' ?_ hU hV hW
  rw [ccs_origin, ccs_origin, calculateCircumcenter_translate]

/-- The homogeneous translation matrix by `t`. -/
def translationMatrix (t : Vec3) : Matrix (Fin 4) (Fin 4) ℝ :=
  Matrix.of ![![1, 0, 0, t.x], ![0, 1, 0, t.y], ![0, 0, 1, t.z], ![0, 0, 0, 1]]

/-- The upper-left 3×3 linear block of a homogeneous 4×4 matrix. -/
def linearPart (M : Matrix (Fin 4) (Fin 4) ℝ) : Matrix (Fin 3) (Fin 3) ℝ :=
  Matrix.of ![![M 0 0, M 0 1, M 0 2], ![M 1 0, M 1 1, M 1 2], ![M 2 0, M 2 1, M 2 2]]

/-- The translation column of a homogeneous 4×4 matrix. -/
def translationPart (M : Matrix (Fin 4) (Fin 4) ℝ) : Vec3 :=
  ⟨M 0 3, M 1 3, M 2 3⟩

theorem frameMatrix_translate (c : CoordinateSystem) (t : Vec3) :
    frameMatrix ⟨c.origin + t, c.U, c.V, c.W⟩ = translationMatrix t * frameMatrix c := by
  ext i j
  fin_cases i <;> fin_cases j <;>
    simp [frameMatrix, translationMatrix, Matrix.mul_apply, Fin.sum_univ_four]

/-- **C4**: for every non-degenerate (non-collinear) tracked triple and every vector
`t`, the rigid transform solver applied to the frames of `(A,B,C)` and
`(A+t,B+t,C+t)`, built with the same reference-point selector, yields a 4×4 matrix
whose 3×3 linear part is the identity and whose translation column is exactly `t`. -/
theorem rigidTransform_pure_translation (A B C t : Vec3) (r : Char)
    (hn : cross (B - A) (C - A) ≠ 0) :
    linearPart (calculateRigidBodyTransform (createCoordinateSystem A B C r)
      (createCoordinateSystem (A + t) (B + t) (C + t) r)) = 1 ∧
    translationPart (calculateRigidBodyTransform (createCoordinateSystem A B C r)
      (createCoordinateSystem (A + t) (B + t) (C + t) r)) = t := by
  obtain ⟨hUU, hVV, hWW, hUV, hUW, hVW⟩ := frame_orthonormal A B C r hn
  have key : calculateRigidBodyTransform (createCoordinateSystem A B C r)
      (createCoordinateSystem (A + t) (B + t) (C + t) r) = translationMatrix t := by
    unfold calculateRigidBodyTransform
    rw [createCoordinateSystem_translate, frameMatrix_translate, Matrix.mul_assoc,
      frame_mul_inv _ hUU hVV hWW hUV hUW hVW, Matrix.mul_one]
  rw [key]
  constructor
  · ext i j
    fin_cases i <;> fin_cases j <;>
      simp [linearPart, translationMatrix, Matrix.one_apply, Matrix.vecHead,
        Matrix.vecTail]
  · apply Vec3.ext_iff' <;> simp [translationPart, translationMatrix]

/-- Witness for C4 at the triple `(0,0,0)`, `(2,0,0)`, `(0,3,0)` translated by
`t = (1,2,3)`, reference point `B`. -/
theorem rigidTransform_pure_translation_witness :
    cross ((⟨2, 0, 0⟩ : Vec3) - ⟨0, 0, 0⟩) ((⟨0, 3, 0⟩ : Vec3) - ⟨0, 0, 0⟩) ≠ 0 ∧
      (linearPart (calculateRigidBodyTransform
          (createCoordinateSystem ⟨0, 0, 0⟩ ⟨2, 0, 0⟩ ⟨0, 3, 0⟩ 'B')
          (createCoordinateSystem ((⟨0, 0, 0⟩ : Vec3) + ⟨1, 2, 3⟩)
            ((⟨2, 0, 0⟩ : Vec3) + ⟨1, 2, 3⟩) ((⟨0, 3, 0⟩ : Vec3) + ⟨1, 2, 3⟩) 'B')) = 1 ∧
        translationPart (calculateRigidBodyTransform
          (createCoordinateSystem ⟨0, 0, 0⟩ ⟨2, 0, 0⟩ ⟨0, 3, 0⟩ 'B')
          (createCoordinateSystem ((⟨0, 0, 0⟩ : Vec3) + ⟨1, 2, 3⟩)
            ((⟨2, 0, 0⟩ : Vec3) + ⟨1, 2, 3⟩) ((⟨0, 3, 0⟩ : Vec3) + ⟨1, 2, 3⟩) 'B')) =
          ⟨1, 2, 3⟩) := by
  have hn : cross ((⟨2, 0, 0⟩ : Vec3) - ⟨0, 0, 0⟩) ((⟨0, 3, 0⟩ : Vec3) - ⟨0, 0, 0⟩) ≠ 0 := by
    intro h
    have hz : (cross ((⟨2, 0, 0⟩ : Vec3) - ⟨0, 0, 0⟩) ((⟨0, 3, 0⟩ : Vec3) - ⟨0, 0, 0⟩)).z
        = (0 : Vec3).z := congrArg Vec3.z h
    rw [Vec3.zero_def] at hz
    norm_num [Vec3.cross, Vec3.sub_def] at hz
  exact ⟨hn, rigidTransform_pure_translation ⟨0, 0, 0⟩ ⟨2, 0, 0⟩ ⟨0, 3, 0⟩ ⟨1, 2, 3⟩ 'B' hn⟩

/-! ## Capacitance estimator (CapacitanceCalculator.cpp) -/

/-- `EPSILON_0` (CapacitanceCalculator.h): vacuum permittivity, F/m. -/
def EPSILON_0 : ℝ := 8.854e-12

/-- `GLYCERIN_RELATIVE_PERMITTIVITY` (CapacitanceCalculator.h). -/
def GLYCERIN_RELATIVE_PERMITTIVITY : ℝ := 42.28

/-- `MAX_RAY_DISTANCE` (CapacitanceCalculator.h): near-field cutoff, mm. -/
def MAX_RAY_DISTANCE : ℝ := 2.0

/-- `Triangle` (CapacitanceCalculator.h). -/
structure Triangle where
  v0 : Vec3
  v1 : Vec3
  v2 : Vec3
  center : Vec3
  normal : Vec3
  area : ℝ

/-- `CapacitanceCalculator::calculateTriangleNormal`: normalized edge cross product,
with the fixed fallback axis `(0,0,1)` when the cross product has zero length. -/
noncomputable def calculateTriangleNormal (v0 v1 v2 : Vec3) : Vec3 :=
  let edge1 := v1 - v0
  let edge2 := v2 - v0
  let normal := cross edge1 edge2
  if 0 < length normal then normalize normal else ⟨0, 0, 1⟩

/-- `CapacitanceCalculator::calculateTriangleArea`. -/
noncomputable def calculateTriangleArea (v0 v1 v2 : Vec3) : ℝ :=
  0.5 * length (cross (v1 - v0) (v2 - v0))

/-- The triangle record built in `extractTrianglesFromModel` from three world-space
vertices (center, unit normal, area). -/
noncomputable def mkTriangle (v0 v1 v2 : Vec3) : Triangle :=
  { v0 := v0, v1 := v1, v2 := v2,
    center := (1 / 3 : ℝ) • (v0 + v1 + v2),
    normal := calculateTriangleNormal v0 v1 v2,
    area := calculateTriangleArea v0 v1 v2 }

/-- The ray record filled in `shootRayAndCalculateContribution` (origin = triangle
center, direction = signed normal, `tfar` = the cutoff). -/
structure Ray where
  org : Vec3
  dir : Vec3
  tfar : ℝ

/-- The Embree spatial-query collaborator (`rtcIntersect1` on a committed scene):
for a ray it returns the nearest-hit distance within the ray's `tfar` cap, or `none`
when no surface lies within the cap. -/
def Scene : Type := Ray → Option ℝ

/-- The ray constructed in `shootRayAndCalculateContribution` for one loop
direction (`-1` or `+1`). -/
def mkRay (tri : Triangle) (direction : ℝ) : Ray :=
  ⟨tri.center, direction • tri.normal, MAX_RAY_DISTANCE⟩

/-- The rays issued by `shootRayAndCalculateContribution` for one triangle: the
`for (direction = -1; direction <= 1; direction += 2)` loop casts exactly these two. -/
def raysFor (tri : Triangle) : List Ray := [mkRay tri (-1), mkRay tri 1]

/-- The accumulation done for a single ray result inside the loop of
`shootRayAndCalculateContribution`: on a hit at distance `d`, contribute
`ε₀·εᵣ·(area·1e-6)/(d·1e-3)` provided the converted distance is positive. -/
noncomputable def rayContribution (tri : Triangle) (hit : Option ℝ) : ℝ :=
  match hit with
  | none => 0
  | some distance =>
      let areaInM2 := tri.area * 1e-6
      let distanceInM := distance * 1e-3
      if distanceInM > 0 then
        EPSILON_0 * GLYCERIN_RELATIVE_PERMITTIVITY * areaInM2 / distanceInM
      else 0

/-- `CapacitanceCalculator::shootRayAndCalculateContribution`: sum of the two
directional contributions, in loop order. -/
noncomputable def shootRayAndCalculateContribution (tri : Triangle) (scene : Scene) : ℝ :=
  (raysFor tri).foldl (fun total ray => total + rayContribution tri (scene ray)) 0

/-- `CapacitanceResult` (CapacitanceCalculator.h). -/
structure CapacitanceResult where
  modelName : String
  capacitance : ℝ
  triangleCount : ℕ
  hitCount : ℕ
  averageDistance : ℝ

/-- The per-triangle accumulator step of `calculateSingleCapacitance`: a triangle
whose contribution is positive is added to the total and counted as one hit. -/
noncomputable def capAccumStep (scene : Scene) (acc : ℝ × ℕ) (triangle : Triangle) :
    ℝ × ℕ :=
  let contribution := shootRayAndCalculateContribution triangle scene
  if contribution > 0 then (acc.1 + contribution, acc.2 + 1) else acc

/-- `CapacitanceCalculator::calculateSingleCapacitance` (the per-model core loop;
the by-name lookup of the triangle list and scene is passed in directly).
`totalDistance` is initialized to `0` and never accumulated, exactly as in the
source (`// Note: We'd need to modify shootRayAndCalculateContribution to return
distance for averaging`). -/
noncomputable def calculateSingleCapacitance (positiveModelName : String)
    (triangles : List Triangle) (scene : Scene) : CapacitanceResult :=
  let totalDistance : ℝ := 0
  let acc := triangles.foldl (capAccumStep scene) (0, 0)
  { modelName := positiveModelName,
    capacitance := acc.1,
    triangleCount := triangles.length,
    hitCount := acc.2,
    averageDistance := if acc.2 > 0 then totalDistance / (acc.2 : ℝ) else 0 }

theorem capAccumStep_monotone (scene : Scene) (triangles : List Triangle)
    (acc : ℝ × ℕ) :
    acc.1 ≤ (triangles.foldl (capAccumStep scene) acc).1 ∧
      (triangles.foldl (capAccumStep scene) acc).2 ≤ acc.2 + triangles.length := by
  induction triangles generalizing acc with
  | nil => simp
  | cons tri rest ih =>
    rw [List.foldl_cons]
    rcases ih (capAccumStep scene acc tri) with ⟨ih1, ih2⟩
    have hstep1 : acc.1 ≤ (capAccumStep scene acc tri).1 := by
      unfold capAccumStep
      dsimp only
      split_ifs with h
      · dsimp only
        linarith
      · exact le_refl _
    have hstep2 : (capAccumStep scene acc tri).2 ≤ acc.2 + 1 := by
      unfold capAccumStep
      dsimp only
      split_ifs with h
      · dsimp only
        omega
      · omega
    refine ⟨le_trans hstep1 ih1, ?_⟩
    simp only [List.length_cons]
    omega

/-- **C8**: every sample emitted by `calculateSingleCapacitance` has nonnegative
total capacitance and a hit count bounded by twice the triangle count (each
triangle is counted as at most one hit, so the bound holds a fortiori). -/
theorem capacitance_sample_guarantees (positiveModelName : String)
    (triangles : List Triangle) (scene : Scene) :
    0 ≤ (calculateSingleCapacitance positiveModelName triangles scene).capacitance ∧
      (calculateSingleCapacitance positiveModelName triangles scene).hitCount ≤
        2 * (calculateSingleCapacitance positiveModelName triangles scene).triangleCount := by
  have h := capAccumStep_monotone scene triangles (0, 0)
  unfold calculateSingleCapacitance
  refine ⟨h.1, ?_⟩
  have h2 := h.2
  simp only at h2 ⊢
  omega

theorem rayContribution_of_none (tri : Triangle) :
    rayContribution tri none = 0 := rfl

/-- **C7**: a triangle for which the spatial query finds no opposing surface within
the `MAX_RAY_DISTANCE` cap in either normal direction (`none` from both of its rays)
contributes exactly 0 to the electrode's total capacitance and nothing to the hit
count: inserting it anywhere in the triangle list changes neither field. -/
theorem cutoff_triangle_contributes_nothing (positiveModelName : String)
    (pre post : List Triangle) (tri : Triangle) (scene : Scene)
    (h1 : scene (mkRay tri (-1)) = none) (h2 : scene (mkRay tri 1) = none) :
    (calculateSingleCapacitance positiveModelName (pre ++ tri :: post) scene).capacitance =
      (calculateSingleCapacitance positiveModelName (pre ++ post) scene).capacitance ∧
    (calculateSingleCapacitance positiveModelName (pre ++ tri :: post) scene).hitCount =
      (calculateSingleCapacitance positiveModelName (pre ++ post) scene).hitCount := by
  have hzero : shootRayAndCalculateContribution tri scene = 0 := by
    unfold shootRayAndCalculateContribution raysFor
    rw [List.foldl_cons, List.foldl_cons, List.foldl_nil, h1, h2,
      rayContribution_of_none]
    norm_num
  have hstep : ∀ acc, capAccumStep scene acc tri = acc := by
    intro acc
    unfold capAccumStep
    rw [hzero]
    norm_num
  unfold calculateSingleCapacitance
  simp [List.foldl_append, List.foldl_cons, hstep]

/-- Witness for C7: a scene with no surface within the cutoff anywhere, one
triangle, empty surrounding lists. -/
theorem cutoff_triangle_contributes_nothing_witness :
    (fun _ => none : Scene) (mkRay (mkTriangle ⟨0, 0, 0⟩ ⟨1, 0, 0⟩ ⟨0, 1, 0⟩) (-1)) = none ∧
    (fun _ => none : Scene) (mkRay (mkTriangle ⟨0, 0, 0⟩ ⟨1, 0, 0⟩ ⟨0, 1, 0⟩) 1) = none ∧
    ((calculateSingleCapacitance "A1_model"
        ([] ++ mkTriangle ⟨0, 0, 0⟩ ⟨1, 0, 0⟩ ⟨0, 1, 0⟩ :: []) (fun _ => none)).capacitance =
      (calculateSingleCapacitance "A1_model" ([] ++ []) (fun _ => none)).capacitance ∧
    (calculateSingleCapacitance "A1_model"
        ([] ++ mkTriangle ⟨0, 0, 0⟩ ⟨1, 0, 0⟩ ⟨0, 1, 0⟩ :: []) (fun _ => none)).hitCount =
      (calculateSingleCapacitance "A1_model" ([] ++ []) (fun _ => none)).hitCount) :=
  ⟨rfl, rfl, cutoff_triangle_contributes_nothing "A1_model" [] []
    (mkTriangle ⟨0, 0, 0⟩ ⟨1, 0, 0⟩ ⟨0, 1, 0⟩) (fun _ => none) rfl rfl⟩

theorem rayContribution_area_zero (tri : Triangle) (hit : Option ℝ)
    (h : tri.area = 0) : rayContribution tri hit = 0 := by
  unfold rayContribution
  cases hit with
  | none => rfl
  | some d =>
    dsimp only
    split_ifs with hd
    · rw [h]
      norm_num
    · rfl

theorem length_zero_vec : length (⟨0, 0, 0⟩ : Vec3) = 0 := by
  unfold Vec3.length Vec3.dot
  norm_num

/-- Counterexample to C2 as stated: even for a fully degenerate triangle (all three
vertices equal, zero-length edge cross product) the evaluation does attempt its two
ray casts — along the fallback direction `±(0,0,1)` — so the list of rays issued for
that triangle is not empty. -/
theorem degenerate_triangle_rays_attempted :
    raysFor (mkTriangle ⟨0, 0, 0⟩ ⟨0, 0, 0⟩ ⟨0, 0, 0⟩) ≠ [] ∧
      (mkTriangle ⟨0, 0, 0⟩ ⟨0, 0, 0⟩ ⟨0, 0, 0⟩).normal = ⟨0, 0, 1⟩ := by
  constructor
  · unfold raysFor
    simp
  · show calculateTriangleNormal ⟨0, 0, 0⟩ ⟨0, 0, 0⟩ ⟨0, 0, 0⟩ = ⟨0, 0, 1⟩
    have hc : cross ((⟨0, 0, 0⟩ : Vec3) - ⟨0, 0, 0⟩) ((⟨0, 0, 0⟩ : Vec3) - ⟨0, 0, 0⟩) =
        ⟨0, 0, 0⟩ := by
      norm_num [Vec3.cross, Vec3.sub_def]
    unfold calculateTriangleNormal
    dsimp only
    rw [hc, length_zero_vec]
    norm_num

/-- **C2 (amended)**: for a triangle whose edge cross product is zero (degenerate
normal) the stored normal is the fixed fallback axis `(0,0,1)`; rays are still cast
along `±(0,0,1)`, but because the triangle's area is `0` its contribution to the
electrode total is exactly `0` for every possible ray-query outcome, and no error is
raised (the computation is total). -/
theorem degenerate_triangle_contributes_zero (v0 v1 v2 : Vec3) (scene : Scene)
    (h : cross (v1 - v0) (v2 - v0) = 0) :
    shootRayAndCalculateContribution (mkTriangle v0 v1 v2) scene = 0 ∧
      (mkTriangle v0 v1 v2).normal = ⟨0, 0, 1⟩ := by
  have harea : (mkTriangle v0 v1 v2).area = 0 := by
    show calculateTriangleArea v0 v1 v2 = 0
    unfold calculateTriangleArea
    rw [h]
    rw [show (0 : Vec3) = ⟨0, 0, 0⟩ from rfl, length_zero_vec]
    norm_num
  have hnormal : (mkTriangle v0 v1 v2).normal = ⟨0, 0, 1⟩ := by
    show calculateTriangleNormal v0 v1 v2 = ⟨0, 0, 1⟩
    unfold calculateTriangleNormal
    dsimp only
    rw [h]
    rw [show (0 : Vec3) = ⟨0, 0, 0⟩ from rfl, length_zero_vec]
    norm_num
  refine ⟨?_, hnormal⟩
  unfold shootRayAndCalculateContribution raysFor
  rw [List.foldl_cons, List.foldl_cons, List.foldl_nil,
    rayContribution_area_zero _ _ harea, rayContribution_area_zero _ _ harea]
  norm_num

/-- Witness for the amended C2: the all-zero triangle against a scene that reports a
hit at distance 1 mm for every ray. -/
theorem degenerate_triangle_contributes_zero_witness :
    cross ((⟨0, 0, 0⟩ : Vec3) - ⟨0, 0, 0⟩) ((⟨0, 0, 0⟩ : Vec3) - ⟨0, 0, 0⟩) = 0 ∧
      (shootRayAndCalculateContribution (mkTriangle ⟨0, 0, 0⟩ ⟨0, 0, 0⟩ ⟨0, 0, 0⟩)
          (fun _ => some 1) = 0 ∧
        (mkTriangle ⟨0, 0, 0⟩ ⟨0, 0, 0⟩ ⟨0, 0, 0⟩).normal = ⟨0, 0, 1⟩) := by
  have h : cross ((⟨0, 0, 0⟩ : Vec3) - ⟨0, 0, 0⟩) ((⟨0, 0, 0⟩ : Vec3) - ⟨0, 0, 0⟩) = 0 := by
    rw [show (0 : Vec3) = ⟨0, 0, 0⟩ from rfl]
    norm_num [Vec3.cross, Vec3.sub_def]
  exact ⟨h, degenerate_triangle_contributes_zero _ _ _ (fun _ => some 1) h⟩

/-- Modelled from the spec: the average-hit-distance a `CapacitanceSample` is
specified to carry — the arithmetic mean of the hit distances of the rays that found
a surface within the cutoff during the evaluation (`0` when there were no hits).
This is the spec-side definition used to exhibit the divergence from the code, which
never accumulates `totalDistance`. -/
noncomputable def specMeanHitDistance (triangles : List Triangle) (scene : Scene) : ℝ :=
  let hits := ((triangles.map raysFor).flatten).filterMap scene
  if hits.length > 0 then hits.sum / (hits.length : ℝ) else 0

theorem unitTriangle_area :
    (mkTriangle ⟨0, 0, 0⟩ ⟨1, 0, 0⟩ ⟨0, 1, 0⟩).area = 1 / 2 := by
  show calculateTriangleArea ⟨0, 0, 0⟩ ⟨1, 0, 0⟩ ⟨0, 1, 0⟩ = 1 / 2
  have hc : cross ((⟨1, 0, 0⟩ : Vec3) - ⟨0, 0, 0⟩) ((⟨0, 1, 0⟩ : Vec3) - ⟨0, 0, 0⟩) =
      ⟨0, 0, 1⟩ := by
    norm_num [Vec3.cross, Vec3.sub_def]
  have hl : length (⟨0, 0, 1⟩ : Vec3) = 1 := by
    unfold Vec3.length Vec3.dot
    norm_num
  unfold calculateTriangleArea
  rw [hc, hl]
  norm_num

theorem unitTriangle_ray_contribution_pos :
    0 < rayContribution (mkTriangle ⟨0, 0, 0⟩ ⟨1, 0, 0⟩ ⟨0, 1, 0⟩) (some 1) := by
  unfold rayContribution
  dsimp only
  rw [if_pos (by norm_num : (1 : ℝ) * 1e-3 > 0), unitTriangle_area]
  unfold EPSILON_0 GLYCERIN_RELATIVE_PERMITTIVITY
  norm_num

theorem unitTriangle_shootRay_pos :
    0 < shootRayAndCalculateContribution (mkTriangle ⟨0, 0, 0⟩ ⟨1, 0, 0⟩ ⟨0, 1, 0⟩)
      (fun _ => some 1) := by
  unfold shootRayAndCalculateContribution raysFor
  rw [List.foldl_cons, List.foldl_cons, List.foldl_nil]
  dsimp only
  linarith [unitTriangle_ray_contribution_pos]

/-- C3, evaluated at the failing input: one non-degenerate triangle against a scene
that reports a hit at distance 1 mm for every ray.  The emitted sample records the
hit (`hitCount = 1`) but carries `averageDistance = 0`, while the mean hit distance
the spec prescribes for that evaluation is `1`: the source initializes
`totalDistance` to `0.0` and never accumulates into it. -/
theorem averageDistance_emitted_zero_despite_hit :
    (calculateSingleCapacitance "A1_model"
        [mkTriangle ⟨0, 0, 0⟩ ⟨1, 0, 0⟩ ⟨0, 1, 0⟩] (fun _ => some 1)).hitCount = 1 ∧
    (calculateSingleCapacitance "A1_model"
        [mkTriangle ⟨0, 0, 0⟩ ⟨1, 0, 0⟩ ⟨0, 1, 0⟩] (fun _ => some 1)).averageDistance = 0 ∧
    specMeanHitDistance [mkTriangle ⟨0, 0, 0⟩ ⟨1, 0, 0⟩ ⟨0, 1, 0⟩] (fun _ => some 1) = 1 := by
  refine ⟨?_, ?_, ?_⟩
  · unfold calculateSingleCapacitance
    dsimp only
    rw [List.foldl_cons, List.foldl_nil]
    unfold capAccumStep
    dsimp only
    rw [if_pos unitTriangle_shootRay_pos]
  · unfold calculateSingleCapacitance
    dsimp only
    rw [List.foldl_cons, List.foldl_nil]
    unfold capAccumStep
    dsimp only
    rw [if_pos unitTriangle_shootRay_pos]
    norm_num
  · unfold specMeanHitDistance raysFor
    simp [List.filterMap]

/-! ## Motion statistics tracker (BulkCapacitanceProcessor.cpp) -/

/-- `SpherePositions` (BulkCapacitanceProcessor.h): one triple of tracked points. -/
structure SpherePositions where
  A : Vec3
  B : Vec3
  C : Vec3

/-- `CentroidStats` (BulkCapacitanceProcessor.h). -/
structure CentroidStats where
  currentPosition : Vec3
  originalPosition : Vec3
  minPosition : Vec3
  maxPosition : Vec3
  boundingSphereRadius : ℝ

/-- `BulkCapacitanceProcessor::calculateBoundingSphere`: grow the radius to the
distance of the current circumcenter from the original one, never shrink it. -/
noncomputable def calculateBoundingSphere (stats : CentroidStats) : CentroidStats :=
  let displacement := stats.currentPosition - stats.originalPosition
  let currentDistance := length displacement
  { stats with boundingSphereRadius := max stats.boundingSphereRadius currentDistance }

/-- `BulkCapacitanceProcessor::updateCentroidStats` for one group's stats record:
recompute the circumcenter, update current position and per-axis min/max, then
update the bounding-sphere radius. -/
noncomputable def updateCentroidStats (stats : CentroidStats)
    (currentPositions : SpherePositions) : CentroidStats :=
  let currentCentroid :=
    calculateCircumcenter currentPositions.A currentPositions.B currentPositions.C
  let stats1 := { stats with
    currentPosition := currentCentroid,
    minPosition := ⟨min stats.minPosition.x currentCentroid.x,
      min stats.minPosition.y currentCentroid.y,
      min stats.minPosition.z currentCentroid.z⟩,
    maxPosition := ⟨max stats.maxPosition.x currentCentroid.x,
      max stats.maxPosition.y currentCentroid.y,
      max stats.maxPosition.z currentCentroid.z⟩ }
  calculateBoundingSphere stats1

/-- **C9**: the bounding-sphere radius never decreases: each single update yields a
radius at least as large as before, and hence along any sequence of updates fed to
the tracker within one run the radius after processing the sequence dominates the
radius at its start. -/
theorem boundingSphereRadius_monotone :
    (∀ (stats : CentroidStats) (pos : SpherePositions),
      stats.boundingSphereRadius ≤ (updateCentroidStats stats pos).boundingSphereRadius) ∧
    (∀ (l : List SpherePositions) (stats : CentroidStats),
      stats.boundingSphereRadius ≤
        (l.foldl updateCentroidStats stats).boundingSphereRadius) := by
  have hstep : ∀ (stats : CentroidStats) (pos : SpherePositions),
      stats.boundingSphereRadius ≤ (updateCentroidStats stats pos).boundingSphereRadius := by
    intro stats pos
    unfold updateCentroidStats calculateBoundingSphere
    exact le_max_left _ _
  refine ⟨hstep, ?_⟩
  intro l
  induction l with
  | nil => intro stats; simp
  | cons pos rest ih =>
    intro stats
    rw [List.foldl_cons]
    exact le_trans (hstep stats pos) (ih (updateCentroidStats stats pos))

/-! ## Result serialization (BulkCapacitanceProcessor::saveResults) -/

/-- Fixed 5-decimal formatting: the model of `std::fixed << std::setprecision(5)`
over exact rationals for the nonnegative values `saveResults` writes — round to the
nearest multiple of 10⁻⁵ (`⌊q·10⁵ + 1/2⌋`) and print with exactly five decimals.
(The odd-tie direction never matters for the claims below, which evaluate at
values whose scaled form is an exact integer.) -/
def fixed5 (q : ℚ) : String :=
  let n : ℕ := Int.toNat ⌊q * 100000 + 1 / 2⌋
  let intPart := n / 100000
  let fracPart := n % 100000
  let fracStr := Nat.repr fracPart
  Nat.repr intPart ++ "." ++
    String.mk (List.replicate (5 - fracStr.length) '0') ++ fracStr

/-- One data line written by `BulkCapacitanceProcessor::saveResults` for row index
`i` (0-based; the file shows `i+1`): each electrode's capacitance (Farads) ×1e12 in
fixed 5-decimal format, then the total of the raw Farad values ×1e12. -/
def saveResultsDataLine (i : ℕ) (capacitances : List ℚ) : String :=
  Nat.repr (i + 1) ++
    String.join (capacitances.map (fun c => "," ++ fixed5 (c * 1e12))) ++
    "," ++ fixed5 (capacitances.sum * 1e12) ++ "\n"

/-- **C10**: a capacitance of exactly 1.0e-13 F is serialized as the string
`"0.10000"` in its `_pF` cell (×1e12, fixed 5-decimal format); on a one-electrode
row the full data line reads `"1,0.10000,0.10000"`. -/
theorem capacitance_1e13_serializes_as_0_10000 :
    fixed5 ((1 / 10 ^ 13 : ℚ) * 1e12) = "0.10000" ∧
      saveResultsDataLine 0 [1 / 10 ^ 13] = "1,0.10000,0.10000\n" := by
  have hval : ((1 / 10 ^ 13 : ℚ) * 1e12) = 1 / 10 := by norm_num
  have hfloor : (⌊(1 / 10 : ℚ) * 100000 + 1 / 2⌋ : ℤ) = 10000 := by
    rw [Int.floor_eq_iff]
    norm_num
  have hcell : fixed5 ((1 / 10 ^ 13 : ℚ) * 1e12) = "0.10000" := by
    rw [hval]
    unfold fixed5
    rw [hfloor]
    rfl
  refine ⟨hcell, ?_⟩
  unfold saveResultsDataLine
  simp only [List.map, List.sum_cons, List.sum_nil, add_zero, String.join]
  rw [hcell]
  rfl

/-! ## Time-series driver (BulkCapacitanceProcessor.cpp) and pose store (Transform.cpp) -/

/-- The three moving electrode groups the driver handles. -/
inductive MovingGroup where
  | TAG : MovingGroup
  | TBG : MovingGroup
  | TCG : MovingGroup
deriving DecidableEq

/-- The group's name string, as used to key the pose store. -/
def groupKey : MovingGroup → String
  | MovingGroup.TAG => "TAG"
  | MovingGroup.TBG => "TBG"
  | MovingGroup.TCG => "TCG"

/-- The group-specific reference-point selector the driver passes to
`createCoordinateSystem` (TAG→'A', TBG→'B', TCG→'C'). -/
def groupRefPoint : MovingGroup → Char
  | MovingGroup.TAG => 'A'
  | MovingGroup.TBG => 'B'
  | MovingGroup.TCG => 'C'

/-- `GroupCSVData` (BulkCapacitanceProcessor.h): a group's loaded offset rows (each
`GroupRowData` holds one `SpherePositions` of offsets; the wrapper is flattened). -/
structure GroupCSVData where
  groupName : String
  rows : List SpherePositions

/-- `BulkCapacitanceProcessor::getRestingPositions` (unknown names give a
default-constructed triple, modelled as zeroes; the driver only passes the three
known names). -/
noncomputable def getRestingPositions (gName : String) : SpherePositions :=
  let radius : ℝ := 24.85
  if gName = "TAG" then
    let offset : ℝ := 4 / Real.sqrt 2
    ⟨⟨0, radius - 4, 0⟩, ⟨offset, radius + offset, 0⟩, ⟨-offset, radius + offset, 0⟩⟩
  else if gName = "TBG" then
    let angle : ℝ := -30 * Real.pi / 180
    let tbgX := radius * Real.cos angle
    let tbgY := radius * Real.sin angle
    let offset : ℝ := 4 / Real.sqrt 2
    ⟨⟨tbgX - offset, tbgY + offset, 0⟩, ⟨tbgX, tbgY - 4, 0⟩, ⟨tbgX + offset, tbgY + offset, 0⟩⟩
  else if gName = "TCG" then
    let angle : ℝ := -150 * Real.pi / 180
    let tcgX := radius * Real.cos angle
    let tcgY := radius * Real.sin angle
    let offset : ℝ := 4 / Real.sqrt 2
    ⟨⟨tcgX + offset, tcgY + offset, 0⟩, ⟨tcgX - offset, tcgY + offset, 0⟩, ⟨tcgX, tcgY - 4, 0⟩⟩
  else ⟨⟨0, 0, 0⟩, ⟨0, 0, 0⟩, ⟨0, 0, 0⟩⟩

/-- `BulkCapacitanceProcessor::addOffsets`. -/
def addOffsets (resting offsets : SpherePositions) : SpherePositions :=
  ⟨resting.A + offsets.A, resting.B + offsets.B, resting.C + offsets.C⟩

/-- `TransformManager` (Transform.h): enable flags, the separated per-group
rotation/translation matrices, the explicit scalar transformation values, and —
modelled from the spec, since `applyCalculatedTransform` has no implementation in
the tree — the store of externally computed per-group transforms. -/
structure TransformManager where
  enablePositiv : Bool
  enableTag : Bool
  enableTbg : Bool
  enableTcg : Bool
  positivRotation : Matrix (Fin 4) (Fin 4) ℝ
  positivTranslation : Matrix (Fin 4) (Fin 4) ℝ
  tagRotation : Matrix (Fin 4) (Fin 4) ℝ
  tagTranslation : Matrix (Fin 4) (Fin 4) ℝ
  tbgRotation : Matrix (Fin 4) (Fin 4) ℝ
  tbgTranslation : Matrix (Fin 4) (Fin 4) ℝ
  tcgRotation : Matrix (Fin 4) (Fin 4) ℝ
  tcgTranslation : Matrix (Fin 4) (Fin 4) ℝ
  positivRotationX : ℝ
  positivRotationY : ℝ
  positivRotationZ : ℝ
  positivTranslationX : ℝ
  positivTranslationY : ℝ
  positivTranslationZ : ℝ
  tagRotationX : ℝ
  tagRotationY : ℝ
  tagRotationZ : ℝ
  tagTranslationX : ℝ
  tagTranslationY : ℝ
  tagTranslationZ : ℝ
  tbgRotationX : ℝ
  tbgRotationY : ℝ
  tbgRotationZ : ℝ
  tbgTranslationX : ℝ
  tbgTranslationY : ℝ
  tbgTranslationZ : ℝ
  tcgRotationX : ℝ
  tcgRotationY : ℝ
  tcgRotationZ : ℝ
  tcgTranslationX : ℝ
  tcgTranslationY : ℝ
  tcgTranslationZ : ℝ
  appliedTransforms : MovingGroup → Matrix (Fin 4) (Fin 4) ℝ

/-- `glm::rotate(mat4(1), θ, (1,0,0))`. -/
noncomputable def rotateXMatrix (θ : ℝ) : Matrix (Fin 4) (Fin 4) ℝ :=
  Matrix.of ![![1, 0, 0, 0], ![0, Real.cos θ, -Real.sin θ, 0],
    ![0, Real.sin θ, Real.cos θ, 0], ![0, 0, 0, 1]]

/-- `glm::rotate(mat4(1), θ, (0,1,0))`. -/
noncomputable def rotateYMatrix (θ : ℝ) : Matrix (Fin 4) (Fin 4) ℝ :=
  Matrix.of ![![Real.cos θ, 0, Real.sin θ, 0], ![0, 1, 0, 0],
    ![-Real.sin θ, 0, Real.cos θ, 0], ![0, 0, 0, 1]]

/-- `glm::rotate(mat4(1), θ, (0,0,1))`. -/
noncomputable def rotateZMatrix (θ : ℝ) : Matrix (Fin 4) (Fin 4) ℝ :=
  Matrix.of ![![Real.cos θ, -Real.sin θ, 0, 0], ![Real.sin θ, Real.cos θ, 0, 0],
    ![0, 0, 1, 0], ![0, 0, 0, 1]]

/-- `TransformManager::buildTransformationMatrices`: rebuild the separated
rotation and translation matrices from the explicit scalar values. -/
noncomputable def buildTransformationMatrices (tm : TransformManager) : TransformManager :=
  { tm with
    positivRotation := rotateXMatrix tm.positivRotationX * rotateYMatrix tm.positivRotationY *
      rotateZMatrix tm.positivRotationZ,
    positivTranslation := translationMatrix
      ⟨tm.positivTranslationX, tm.positivTranslationY, tm.positivTranslationZ⟩,
    tagRotation := rotateXMatrix tm.tagRotationX * rotateYMatrix tm.tagRotationY *
      rotateZMatrix tm.tagRotationZ,
    tagTranslation := translationMatrix
      ⟨tm.tagTranslationX, tm.tagTranslationY, tm.tagTranslationZ⟩,
    tbgRotation := rotateXMatrix tm.tbgRotationX * rotateYMatrix tm.tbgRotationY *
      rotateZMatrix tm.tbgRotationZ,
    tbgTranslation := translationMatrix
      ⟨tm.tbgTranslationX, tm.tbgTranslationY, tm.tbgTranslationZ⟩,
    tcgRotation := rotateXMatrix tm.tcgRotationX * rotateYMatrix tm.tcgRotationY *
      rotateZMatrix tm.tcgRotationZ,
    tcgTranslation := translationMatrix
      ⟨tm.tcgTranslationX, tm.tcgTranslationY, tm.tcgTranslationZ⟩ }

/-- `BulkCapacitanceProcessor::resetTransformations`: clear all enable flags, zero
the TAG/TBG/TCG scalar rotation/translation values (the `positiv` scalars are not
touched), then rebuild the matrices.  It does not touch the applied-transform
store. -/
noncomputable def resetTransformations (tm : TransformManager) : TransformManager :=
  buildTransformationMatrices
    { tm with
      enablePositiv := false,
      enableTag := false,
      enableTbg := false,
      enableTcg := false,
      tagRotationX := 0, tagRotationY := 0, tagRotationZ := 0,
      tagTranslationX := 0, tagTranslationY := 0, tagTranslationZ := 0,
      tbgRotationX := 0, tbgRotationY := 0, tbgRotationZ := 0,
      tbgTranslationX := 0, tbgTranslationY := 0, tbgTranslationZ := 0,
      tcgRotationX := 0, tcgRotationY := 0, tcgRotationZ := 0,
      tcgTranslationX := 0, tcgTranslationY := 0, tcgTranslationZ := 0 }

/-- Modelled from the spec: `TransformManager::applyCalculatedTransform` is declared
in Transform.h and called by the driver for every in-range row, but its
implementation is not part of the source tree.  The spec describes the pose-store
interface as "apply an externally computed transform to a named group" and states
that a group's pose is left at whatever the previous row set it to when its series
is exhausted, while the per-row reset clears only enable flags and
rotation/translation scratch fields.  Accordingly the call stores the matrix under
the named group's key and leaves everything else unchanged. -/
def applyCalculatedTransform (gName : String) (transform : Matrix (Fin 4) (Fin 4) ℝ)
    (tm : TransformManager) : TransformManager :=
  if gName = "TAG" then
    { tm with appliedTransforms :=
        fun g => if g = MovingGroup.TAG then transform else tm.appliedTransforms g }
  else if gName = "TBG" then
    { tm with appliedTransforms :=
        fun g => if g = MovingGroup.TBG then transform else tm.appliedTransforms g }
  else if gName = "TCG" then
    { tm with appliedTransforms :=
        fun g => if g = MovingGroup.TCG then transform else tm.appliedTransforms g }
  else tm

/-- Driver state: the pose store plus the three per-group centroid statistics. -/
structure ProcessorState where
  tm : TransformManager
  tagStats : CentroidStats
  tbgStats : CentroidStats
  tcgStats : CentroidStats

def getGroupStats : MovingGroup → ProcessorState → CentroidStats
  | MovingGroup.TAG, s => s.tagStats
  | MovingGroup.TBG, s => s.tbgStats
  | MovingGroup.TCG, s => s.tcgStats

def setGroupStats : MovingGroup → CentroidStats → ProcessorState → ProcessorState
  | MovingGroup.TAG, st, s => { s with tagStats := st }
  | MovingGroup.TBG, st, s => { s with tbgStats := st }
  | MovingGroup.TCG, st, s => { s with tcgStats := st }

/-- The transform the driver computes for one group from one offset row: rest and
deformed frames from the group's resting positions, solved by
`calculateRigidBodyTransform` with the group's reference-point selector. -/
noncomputable def rowTransform (g : MovingGroup) (offsets : SpherePositions) :
    Matrix (Fin 4) (Fin 4) ℝ :=
  let resting := getRestingPositions (groupKey g)
  let deformed := addOffsets resting offsets
  calculateRigidBodyTransform
    (createCoordinateSystem resting.A resting.B resting.C (groupRefPoint g))
    (createCoordinateSystem deformed.A deformed.B deformed.C (groupRefPoint g))

/-- One group's block inside the per-row body of `processCSVFiles` / `stepToRow`:
if the row index is within the group's series, update that group's centroid stats
and push the computed rigid transform into the pose store; otherwise do nothing for
this group. -/
noncomputable def groupStep (g : MovingGroup) (data : GroupCSVData) (row : ℕ)
    (s : ProcessorState) : ProcessorState :=
  if h : row < data.rows.length then
    let offsets := data.rows.get ⟨row, h⟩
    let deformed := addOffsets (getRestingPositions (groupKey g)) offsets
    let s1 := setGroupStats g (updateCentroidStats (getGroupStats g s) deformed) s
    { s1 with tm := applyCalculatedTransform (groupKey g) (rowTransform g offsets) s1.tm }
  else s

/-- The per-row body shared by the bulk sweep (`processCSVFiles` loop) and step mode
(`stepToRow`): reset the pose store's flags and scratch fields, then run the TAG,
TBG and TCG blocks in order. -/
noncomputable def processRow (tagData tbgData tcgData : GroupCSVData) (row : ℕ)
    (s : ProcessorState) : ProcessorState :=
  groupStep MovingGroup.TCG tcgData row
    (groupStep MovingGroup.TBG tbgData row
      (groupStep MovingGroup.TAG tagData row
        { s with tm := resetTransformations s.tm }))

/-- The bulk sweep over rows `0..n` in order (`for (row = 0; row < maxRows; row++)`). -/
noncomputable def processRowsUpTo (tagData tbgData tcgData : GroupCSVData) (n : ℕ)
    (s : ProcessorState) : ProcessorState :=
  (List.range (n + 1)).foldl (fun st row => processRow tagData tbgData tcgData row st) s

/-- Selects the group's series, as the three per-group blocks do. -/
def dataOf (tagData tbgData tcgData : GroupCSVData) : MovingGroup → GroupCSVData
  | MovingGroup.TAG => tagData
  | MovingGroup.TBG => tbgData
  | MovingGroup.TCG => tcgData

theorem resetTransformations_applied (tm : TransformManager) :
    (resetTransformations tm).appliedTransforms = tm.appliedTransforms := rfl

theorem applyCalculatedTransform_same (g : MovingGroup)
    (M : Matrix (Fin 4) (Fin 4) ℝ) (tm : TransformManager) :
    (applyCalculatedTransform (groupKey g) M tm).appliedTransforms g = M := by
  cases g <;> (unfold applyCalculatedTransform groupKey) <;> simp

theorem applyCalculatedTransform_other (g g' : MovingGroup) (h : g ≠ g')
    (M : Matrix (Fin 4) (Fin 4) ℝ) (tm : TransformManager) :
    (applyCalculatedTransform (groupKey g') M tm).appliedTransforms g =
      tm.appliedTransforms g := by
  cases g <;> cases g' <;>
    first
      | exact absurd rfl h
      | (unfold applyCalculatedTransform groupKey; simp)

theorem setGroupStats_tm (g : MovingGroup) (st : CentroidStats) (s : ProcessorState) :
    (setGroupStats g st s).tm = s.tm := by
  cases g <;> rfl

theorem groupStep_applied_same (g : MovingGroup) (data : GroupCSVData) (row : ℕ)
    (s : ProcessorState) :
    (groupStep g data row s).tm.appliedTransforms g =
      if h : row < data.rows.length
      then rowTransform g (data.rows.get ⟨row, h⟩)
      else s.tm.appliedTransforms g := by
  unfold groupStep
  by_cases h : row < data.rows.length
  · rw [dif_pos h, dif_pos h]
    exact applyCalculatedTransform_same g _ _
  · rw [dif_neg h, dif_neg h]

theorem groupStep_applied_other (g g' : MovingGroup) (h : g ≠ g')
    (data : GroupCSVData) (row : ℕ) (s : ProcessorState) :
    (groupStep g' data row s).tm.appliedTransforms g = s.tm.appliedTransforms g := by
  unfold groupStep
  by_cases hr : row < data.rows.length
  · rw [dif_pos hr]
    dsimp only
    rw [setGroupStats_tm]
    exact applyCalculatedTransform_other g g' h _ _
  · rw [dif_neg hr]

theorem processRow_applied (tagData tbgData tcgData : GroupCSVData) (row : ℕ)
    (s : ProcessorState) (g : MovingGroup) :
    (processRow tagData tbgData tcgData row s).tm.appliedTransforms g =
      if h : row < (dataOf tagData tbgData tcgData g).rows.length
      then rowTransform g ((dataOf tagData tbgData tcgData g).rows.get ⟨row, h⟩)
      else s.tm.appliedTransforms g := by
  cases g with
  | TAG =>
    unfold processRow
    rw [groupStep_applied_other MovingGroup.TAG MovingGroup.TCG (by decide),
      groupStep_applied_other MovingGroup.TAG MovingGroup.TBG (by decide),
      groupStep_applied_same]
    rfl
  | TBG =>
    unfold processRow
    rw [groupStep_applied_other MovingGroup.TBG MovingGroup.TCG (by decide),
      groupStep_applied_same]
    simp only [dataOf]
    by_cases h : row < tbgData.rows.length
    · rw [dif_pos h, dif_pos h]
    · rw [dif_neg h, dif_neg h,
        groupStep_applied_other MovingGroup.TBG MovingGroup.TAG (by decide)]
      rfl
  | TCG =>
    unfold processRow
    rw [groupStep_applied_same]
    simp only [dataOf]
    by_cases h : row < tcgData.rows.length
    · rw [dif_pos h, dif_pos h]
    · rw [dif_neg h, dif_neg h,
        groupStep_applied_other MovingGroup.TCG MovingGroup.TBG (by decide),
        groupStep_applied_other MovingGroup.TCG MovingGroup.TAG (by decide)]
      rfl

theorem processRowsUpTo_succ (tagData tbgData tcgData : GroupCSVData) (n : ℕ)
    (s : ProcessorState) :
    processRowsUpTo tagData tbgData tcgData (n + 1) s =
      processRow tagData tbgData tcgData (n + 1)
        (processRowsUpTo tagData tbgData tcgData n s) := by
  unfold processRowsUpTo
  rw [List.range_succ, List.foldl_append, List.foldl_cons, List.foldl_nil]

theorem holdLast_aux (tagData tbgData tcgData : GroupCSVData) (g : MovingGroup)
    (s : ProcessorState) :
    ∀ n : ℕ, ∀ hpos : 0 < (dataOf tagData tbgData tcgData g).rows.length,
      (dataOf tagData tbgData tcgData g).rows.length ≤ n + 1 →
      (processRowsUpTo tagData tbgData tcgData n s).tm.appliedTransforms g =
        rowTransform g ((dataOf tagData tbgData tcgData g).rows.get
          ⟨(dataOf tagData tbgData tcgData g).rows.length - 1, by omega⟩) := by
  intro n
  induction n with
  | zero =>
    intro hpos hle
    have h0 : processRowsUpTo tagData tbgData tcgData 0 s =
        processRow tagData tbgData tcgData 0 s := by
      unfold processRowsUpTo
      rw [List.range_succ, List.range_zero, List.nil_append, List.foldl_cons,
        List.foldl_nil]
    rw [h0, processRow_applied, dif_pos hpos]
    have hlen : (dataOf tagData tbgData tcgData g).rows.length - 1 = 0 := by omega
    simp [hlen]
  | succ n ih =>
    intro hpos hle
    rw [processRowsUpTo_succ, processRow_applied]
    by_cases h : n + 1 < (dataOf tagData tbgData tcgData g).rows.length
    · rw [dif_pos h]
      have hlen : (dataOf tagData tbgData tcgData g).rows.length - 1 = n + 1 := by omega
      simp [hlen]
    · rw [dif_neg h]
      exact ih hpos (by omega)

/-- **C1** (spec-modelled pose store: `applyCalculatedTransform` has no
implementation under the source tree, so the store obeys the spec's "apply an
externally computed transform to a named group" with the hold-last-value rule).
First conjunct, bulk sweep: after processing rows `0..n` in order, every group
whose series length is at most `n` still holds the transform its own series applied
last, at row `length-1`.  Second conjunct, single-row processing (the body shared
with step mode): a row beyond a group's series length leaves that group's stored
pose exactly as it was, whatever state the driver is in. -/
theorem driver_holds_last_applied_transform (tagData tbgData tcgData : GroupCSVData)
    (s : ProcessorState) (g : MovingGroup) (n : ℕ)
    (hpos : 0 < (dataOf tagData tbgData tcgData g).rows.length)
    (hle : (dataOf tagData tbgData tcgData g).rows.length ≤ n) :
    ((processRowsUpTo tagData tbgData tcgData n s).tm.appliedTransforms g =
      rowTransform g ((dataOf tagData tbgData tcgData g).rows.get
        ⟨(dataOf tagData tbgData tcgData g).rows.length - 1, by omega⟩)) ∧
    ∀ (s' : ProcessorState) (row : ℕ),
      (dataOf tagData tbgData tcgData g).rows.length ≤ row →
      (processRow tagData tbgData tcgData row s').tm.appliedTransforms g =
        s'.tm.appliedTransforms g := by
  constructor
  · exact holdLast_aux tagData tbgData tcgData g s n hpos (by omega)
  · intro s' row hrow
    rw [processRow_applied, dif_neg (by omega)]

/-- An all-zero offset row, for the C1 witness. -/
def zeroTriple : SpherePositions := ⟨⟨0, 0, 0⟩, ⟨0, 0, 0⟩, ⟨0, 0, 0⟩⟩

/-- A concrete zeroed stats record, for the C1 witness. -/
def zeroStats : CentroidStats := ⟨⟨0, 0, 0⟩, ⟨0, 0, 0⟩, ⟨0, 0, 0⟩, ⟨0, 0, 0⟩, 0⟩

/-- A concrete pose-store state, for the C1 witness. -/
noncomputable def sampleTransformManager : TransformManager where
  enablePositiv := true
  enableTag := false
  enableTbg := false
  enableTcg := false
  positivRotation := 1
  positivTranslation := 1
  tagRotation := 1
  tagTranslation := 1
  tbgRotation := 1
  tbgTranslation := 1
  tcgRotation := 1
  tcgTranslation := 1
  positivRotationX := 0
  positivRotationY := 0
  positivRotationZ := 0
  positivTranslationX := 0
  positivTranslationY := 0
  positivTranslationZ := 0
  tagRotationX := 0
  tagRotationY := 0
  tagRotationZ := 0
  tagTranslationX := 0
  tagTranslationY := 0
  tagTranslationZ := 0
  tbgRotationX := 0
  tbgRotationY := 0
  tbgRotationZ := 0
  tbgTranslationX := 0
  tbgTranslationY := 0
  tbgTranslationZ := 0
  tcgRotationX := 0
  tcgRotationY := 0
  tcgRotationZ := 0
  tcgTranslationX := 0
  tcgTranslationY := 0
  tcgTranslationZ := 0
  appliedTransforms := fun _ => 1

/-- A concrete driver state, for the C1 witness. -/
noncomputable def sampleProcessorState : ProcessorState :=
  ⟨sampleTransformManager, zeroStats, zeroStats, zeroStats⟩

/-- TAG series of length 5, for the C1 witness. -/
def tagSample : GroupCSVData := ⟨"TAG", List.replicate 5 zeroTriple⟩

/-- TBG series of length 3, for the C1 witness. -/
def tbgSample : GroupCSVData := ⟨"TBG", List.replicate 3 zeroTriple⟩

/-- TCG series of length 4, for the C1 witness. -/
def tcgSample : GroupCSVData := ⟨"TCG", List.replicate 4 zeroTriple⟩

/-- Witness for C1 at the spec's example: series lengths 5 (TAG), 3 (TBG), 4 (TCG),
`maxRows = 5`; after processing rows `0..4` the TBG pose still holds the transform
its series applied at row 2 (its last row). -/
theorem driver_holds_last_applied_transform_witness :
    0 < (dataOf tagSample tbgSample tcgSample MovingGroup.TBG).rows.length ∧
    (dataOf tagSample tbgSample tcgSample MovingGroup.TBG).rows.length ≤ 4 ∧
    (((processRowsUpTo tagSample tbgSample tcgSample 4
          sampleProcessorState).tm.appliedTransforms MovingGroup.TBG =
        rowTransform MovingGroup.TBG
          ((dataOf tagSample tbgSample tcgSample MovingGroup.TBG).rows.get
            ⟨(dataOf tagSample tbgSample tcgSample MovingGroup.TBG).rows.length - 1,
              by simp [dataOf, tbgSample]⟩)) ∧
      ∀ (s' : ProcessorState) (row : ℕ),
        (dataOf tagSample tbgSample tcgSample MovingGroup.TBG).rows.length ≤ row →
        (processRow tagSample tbgSample tcgSample row s').tm.appliedTransforms
            MovingGroup.TBG =
          s'.tm.appliedTransforms MovingGroup.TBG) := by
  have hpos : 0 < (dataOf tagSample tbgSample tcgSample MovingGroup.TBG).rows.length := by
    simp [dataOf, tbgSample]
  have hle : (dataOf tagSample tbgSample tcgSample MovingGroup.TBG).rows.length ≤ 4 := by
    simp [dataOf, tbgSample]
  exact ⟨hpos, hle, driver_holds_last_applied_transform tagSample tbgSample tcgSample
    sampleProcessorState MovingGroup.TBG 4 hpos hle⟩
